import Mathlib

/-!
# Test-Electrum: `main.js`

A shallow embedding of the script that exercises an Electrum server:

* the two network-constant tables `TESTNET_P2SH_P2WSH` and `MAINNET_P2SH_P2WSH`,
* `getScriptHash` (address to Electrum script hash),
* `main` (connect, ten awaited requests inside one `try`, then `close`).

The libraries the script calls (`bitcoinjs-lib`, `electrum-client`) are not part of the
repository.  `bitcoin.address.toOutputScript` and `bitcoin.crypto.sha256` are taken as
parameters of `getScriptHash`; the Electrum client object is an `ElectrumCli` record that
answers `connect`, every request and `close`, each answer possibly depending on everything
that happened before.

Modelling choices.  An address is a Lean `String`; the search strings of `startsWith` are
ASCII, so reading the address by characters or by UTF-16 units gives the same answer.  A
`Buffer` is a list of bytes.  Responses are decoded JSON values.  Five results are logged
through a template literal (main.js 117, 119, 122, 125, 141), whose string conversion throws
on an object that has an own `toString` property; that throw happens inside the second `try`.
The other results are passed to `JSON.stringify` or to `console.log` as they are, which do
not throw on decoded JSON.  An `await` adds the event of the call and the event of its
settlement, with nothing in between: `main` is the only code that touches the client.
-/

namespace TestElectrum

/-! ## Network constant tables (main.js 13-29) -/

/-- The `bip32` sub-object of a network table. -/
structure Bip32 where
  publicKey : Nat
  privateKey : Nat
  deriving DecidableEq, Repr

/-- The shape of the objects `TESTNET_P2SH_P2WSH` and `MAINNET_P2SH_P2WSH`. -/
structure Network where
  messagePrefix : String
  bech32 : String
  bip32 : Bip32
  pubKeyHash : Nat
  scriptHash : Nat
  wif : Nat
  deriving DecidableEq, Repr

def TESTNET_P2SH_P2WSH : Network :=
  { messagePrefix := "\x18Bitcoin Signed Message:\n"
    bech32 := "tb"
    bip32 := { publicKey := 0x024289ef, privateKey := 0x024285b5 }
    pubKeyHash := 0x6f
    scriptHash := 0xc4
    wif := 0xef }

def MAINNET_P2SH_P2WSH : Network :=
  { messagePrefix := "\x18Bitcoin Signed Message:\n"
    bech32 := "tb"
    bip32 := { publicKey := 0x049d7cb2, privateKey := 0x049d7878 }
    pubKeyHash := 0x00
    scriptHash := 0x05
    wif := 0x80 }

/-! ## Fixtures (main.js 31-41) -/

def fundedTestnetAddress : String := "tb1q7j32ycv2nan30y2jzug6lats2a9r7yjnqsx59f"

def testnetTxId : String :=
  "89cdf6fde736a06949ec61a213159e43f742a34fb66d8f1495c7085634205c2b"

def testnetTxBlockHeight : Nat := 2413062

def fundedMainnetAddress : String := "37HMmfnCiHYKoY8cvXAGTXHgXoQHWTuGpP"

def mainnetTxId : String :=
  "4856ea15c34c0b1f4f2c64b3f564ba395d801f32d0817a0d27ff5f52d30eb6a7"

def mainnetTxBlockHeight : Nat := 787794

/-! ## getScriptHash (main.js 80-99) -/

/-- A byte of a Node `Buffer`. -/
abbrev Byte := Fin 256

/-- What a thrown JavaScript value is reduced to. -/
abbrev Err := String

deriving instance DecidableEq for Except

/-- `String.prototype.startsWith(searchString)` at position 0. -/
def startsWith (s searchString : String) : Bool :=
  searchString.toList.isPrefixOf s.toList

/-- One hexadecimal digit, lowercase, as `Buffer.prototype.toString("hex")` writes it. -/
def hexDigit (n : Nat) : Char :=
  "0123456789abcdef".toList.getD n '0'

/-- The two digits of one byte, high nibble first. -/
def hexOfByte (b : Byte) : List Char :=
  [hexDigit (b.val / 16), hexDigit (b.val % 16)]

/-- `Buffer.prototype.toString("hex")`. -/
def toStringHex (buf : List Byte) : String :=
  String.mk (buf.flatMap hexOfByte)

/-- The value of a lowercase hexadecimal digit. -/
def hexValue (c : Char) : Option Nat :=
  let i := "0123456789abcdef".toList.indexOf c
  if i < 16 then some i else none

/-- Hex decoding of a list of characters, two digits a byte. -/
def fromHexChars : List Char → Option (List Byte)
  | [] => some []
  | [_] => none
  | hi :: lo :: rest =>
    match hexValue hi, hexValue lo, fromHexChars rest with
    | some h, some l, some bs => some (Fin.ofNat (16 * h + l) :: bs)
    | _, _, _ => none

/-- The hex decoding that C7 speaks of.  It is not in the source: it is the reading of a
string of lowercase digit pairs as bytes, the inverse of `toStringHex`. -/
def fromHex (s : String) : Option (List Byte) := fromHexChars s.toList

/-- The `if`/`else` that opens `getScriptHash`: the table handed to `toOutputScript`. -/
def getScriptHash_network (address : String) : Network :=
  if startsWith address "2" ||
      startsWith address "tb1" ||
      startsWith address "m" ||
      startsWith address "n" then
    TESTNET_P2SH_P2WSH
  else
    MAINNET_P2SH_P2WSH

/-- `getScriptHash(address)`.  `toOutputScript` may throw; `sha256` does not. -/
def getScriptHash (toOutputScript : String → Network → Except Err (List Byte))
    (sha256 : List Byte → List Byte) (address : String) : Except Err String := do
  let network := getScriptHash_network address
  let script ← toOutputScript address network
  let hash := sha256 script
  let reversedHash := hash.reverse
  return toStringHex reversedHash

/-! ## The Electrum client and the observable run -/

mutual
/-- A decoded JSON response, as `JSON.parse` builds it: plain objects and arrays without
cycles, whose members are again such values.  A number is kept as it is written. -/
inductive Json where
  | null
  | bool (b : Bool)
  | num (literal : String)
  | str (s : String)
  | arr (items : JsonItems)
  | obj (members : JsonMembers)
  deriving DecidableEq
/-- The elements of a JSON array. -/
inductive JsonItems where
  | nil
  | cons (head : Json) (tail : JsonItems)
  deriving DecidableEq
/-- The members of a JSON object, as own data properties. -/
inductive JsonMembers where
  | nil
  | cons (key : String) (value : Json) (tail : JsonMembers)
  deriving DecidableEq
end

/-- The result of a request. -/
abbrev Val := Json

/-- Whether the object has an own property `k`. -/
def JsonMembers.hasKey (k : String) : JsonMembers → Bool
  | .nil => false
  | .cons key _ tail => key == k || tail.hasKey k

mutual
/-- Whether interpolating the value into a template literal throws `TypeError`.  The
string conversion of an object calls its `toString`; an own property `toString` of a decoded
JSON object is never callable, nor is its `valueOf` or the inherited one of any use, so the
conversion throws; without that property the inherited `Object.prototype.toString` answers.
An array is joined, which converts every element other than `null`.  The limits of the
engine (call stack, memory) are not modelled. -/
def Json.toStringThrows : Json → Bool
  | .arr items => items.anyThrows
  | .obj members => members.hasKey "toString"
  | _ => false
/-- Whether the conversion of some element of the array throws. -/
def JsonItems.anyThrows : JsonItems → Bool
  | .nil => false
  | .cons head tail => head.toStringThrows || tail.anyThrows
end

/-- An element of the `params` array of a raw `ecl.request(method, params)`. -/
inductive Param where
  | str (s : String)
  | bool (b : Bool)
  | num (n : Nat)
  deriving DecidableEq, Repr

/-- The calls `main` makes on the client object, named as in the source. -/
inductive Request where
  | server_version (client_name protocol_version : String)
  | blockchainEstimatefee (number : Nat)
  | blockchainScripthash_getBalance (scripthash : String)
  | blockchainScripthash_getHistory (scripthash : String)
  | request (method : String) (params : List Param)
  | blockchainScripthash_listunspent (scripthash : String)
  | blockchainTransaction_getMerkle (tx_hash : String) (height : Nat)
  deriving DecidableEq, Repr

/-- How an awaited promise settles. -/
inductive Settled (α : Type) where
  | fulfilled (v : α)
  | rejected (e : Err)
  deriving DecidableEq

/-- What one `console.log` call is given. -/
inductive Logged where
  | text (s : String)
  | value (label : String) (v : Val)
  | thrown (e : Err)
  deriving DecidableEq

/-- The observable actions of a run, in the order they happen. -/
inductive Event where
  | log (l : Logged)
  | construct (port host protocol : String)
  | connectCalled
  | connectSettled (s : Settled Unit)
  | issued (r : Request)
  | settled (r : Request) (s : Settled Val)
  | closeCalled
  | closeSettled (s : Settled Unit)
  deriving DecidableEq

/-- The client object `ecl` together with the server behind it: how `connect`, each request
and `close` settle, given everything observed so far. -/
structure ElectrumCli where
  connect : List Event → Settled Unit
  answer : List Event → Request → Settled Val
  close : List Event → Settled Unit

/-- The parsed command line (main.js 44-73). -/
structure Argv where
  host : String
  port : String
  ssl : Bool
  testnet : Bool
  deriving DecidableEq, Repr

def electrumHost (argv : Argv) : String := argv.host
def electrumPort (argv : Argv) : String := argv.port
def electrumProto (argv : Argv) : String := if argv.ssl then "tls" else "tcp"

/-- A computation that appends to the trace of events and returns or throws. -/
def Prog (α : Type) : Type := List Event → Except Err α × List Event

namespace Prog

def pure {α : Type} (a : α) : Prog α := fun tr => (.ok a, tr)

def bind {α β : Type} (m : Prog α) (f : α → Prog β) : Prog β := fun tr =>
  match m tr with
  | (.ok a, tr1) => f a tr1
  | (.error e, tr1) => (.error e, tr1)

def throw {α : Type} (e : Err) : Prog α := fun tr => (.error e, tr)

def tryCatch {α : Type} (m : Prog α) (handler : Err → Prog α) : Prog α := fun tr =>
  match m tr with
  | (.ok a, tr1) => (.ok a, tr1)
  | (.error e, tr1) => handler e tr1

end Prog

instance : Monad Prog where
  pure := Prog.pure
  bind := Prog.bind

instance : MonadExcept Err Prog where
  throw := Prog.throw
  tryCatch := Prog.tryCatch

/-- Records one event. -/
def emit (e : Event) : Prog Unit := fun tr => (.ok (), tr ++ [e])

/-- `console.log(...)`. -/
def console_log (l : Logged) : Prog Unit := emit (.log l)

/-- The `TypeError` of a string conversion that finds no primitive. -/
def cannotConvert : Err := "TypeError: Cannot convert object to primitive value"

/-- A `console.log` of a template literal into which the result `v` is interpolated, as in
main.js 117, 119, 122, 125 and 141: the template literal is evaluated first and may throw,
and then nothing is logged. -/
def console_log_template (label : String) (v : Val) : Prog Unit :=
  if v.toStringThrows then throw cannotConvert else console_log (.value label v)

/-- `await p` for a promise that settles as `s`: the value, or the rejection thrown. -/
def awaitSettled {α : Type} (s : Settled α) : Prog α :=
  match s with
  | .fulfilled v => Prog.pure v
  | .rejected e => Prog.throw e

/-- `await ecl.connect()`. -/
def awaitConnect (ecl : ElectrumCli) : Prog Unit := fun tr =>
  let tr1 := tr ++ [.connectCalled]
  let s := ecl.connect tr1
  awaitSettled s (tr1 ++ [.connectSettled s])

/-- `await ecl.<method>(...)`: the request is issued, main is suspended until it settles. -/
def await (ecl : ElectrumCli) (r : Request) : Prog Val := fun tr =>
  let tr1 := tr ++ [.issued r]
  let s := ecl.answer tr1 r
  awaitSettled s (tr1 ++ [.settled r s])

/-- `await ecl.close()`. -/
def awaitClose (ecl : ElectrumCli) : Prog Unit := fun tr =>
  let tr1 := tr ++ [.closeCalled]
  let s := ecl.close tr1
  awaitSettled s (tr1 ++ [.closeSettled s])

/-- `main` (main.js 101-160).  `testnetScriptHash` and `mainnetScriptHash` are the module
constants computed when the script is loaded. -/
def main (argv : Argv) (testnetScriptHash mainnetScriptHash : String) (ecl : ElectrumCli) :
    Prog Unit := do
  console_log (.text ("Connecting to Electrum server " ++ electrumProto argv ++ "://" ++
    electrumHost argv ++ ":" ++ electrumPort argv))
  emit (.construct (electrumPort argv) (electrumHost argv) (electrumProto argv))
  let scriptHash := if argv.testnet then testnetScriptHash else mainnetScriptHash
  try
    awaitConnect ecl
  catch e =>
    console_log (.text "Error connecting to Electrum:")
    console_log (.thrown e)
    throw "Error"
  try
    let ver ← await ecl (.server_version "Test" "1.4")
    console_log_template "Version: " ver
    let feeHigh ← await ecl (.blockchainEstimatefee 1)
    console_log_template "Fee estimate 1 blocks: " feeHigh
    let feeMed ← await ecl (.blockchainEstimatefee 4)
    console_log_template "Fee estimate 4 blocks: " feeMed
    let feeLow ← await ecl (.blockchainEstimatefee 10)
    console_log_template "Fee estimate 10 blocks: " feeLow
    let balance ← await ecl (.blockchainScripthash_getBalance scriptHash)
    console_log (.value "\x7b balance \x7d" balance)
    let scriptHashHistroy ← await ecl (.blockchainScripthash_getHistory scriptHash)
    console_log (.value "Script hash history " scriptHashHistroy)
    let tx ← await ecl (.request "blockchain.transaction.get"
      [.str (if argv.testnet then testnetTxId else mainnetTxId), .bool false])
    console_log_template "Testnet Tx " tx
    let utxos ← await ecl (.blockchainScripthash_listunspent scriptHash)
    console_log (.value "Testnet Utxos " utxos)
    let blockHeader ← await ecl (.request "blockchain.block.header" [.num 12345])
    console_log (.value "Block 12345 header: " blockHeader)
    let merkelPath ← await ecl (.blockchainTransaction_getMerkle
      (if argv.testnet then testnetTxId else mainnetTxId)
      (if argv.testnet then testnetTxBlockHeight else mainnetTxBlockHeight))
    console_log (.value "Merkel path for txid : " merkelPath)
  catch e =>
    console_log (.thrown e)
  awaitClose ecl

/-- The script as a whole: the two module constants are computed first (main.js 32, 38),
a throw there ends the script before `main` is called (main.js 162). -/
def script (toOutputScript : String → Network → Except Err (List Byte))
    (sha256 : List Byte → List Byte) (argv : Argv) (ecl : ElectrumCli) :
    Except Err Unit × List Event :=
  match getScriptHash toOutputScript sha256 fundedTestnetAddress with
  | .error e => (.error e, [])
  | .ok testnetScriptHash =>
    match getScriptHash toOutputScript sha256 fundedMainnetAddress with
    | .error e => (.error e, [])
    | .ok mainnetScriptHash => main argv testnetScriptHash mainnetScriptHash ecl []

/-! ## Reading a trace -/

/-- The requests issued in a trace, in order. -/
def requestsIssued (tr : List Event) : List Request :=
  tr.filterMap fun ev => match ev with
    | .issued r => some r
    | _ => none

/-- The trace read with at most one request in flight: `inflight` is the request issued and
not yet settled.  Nothing at all may happen while a request is in flight except its own
settlement, and at the end nothing is in flight. -/
def sequentialFrom (inflight : Option Request) : List Event → Bool
  | [] => inflight.isNone
  | ev :: rest =>
    match inflight, ev with
    | none, .issued r => sequentialFrom (some r) rest
    | some r, .settled r1 _ => decide (r = r1) && sequentialFrom none rest
    | none, .settled _ _ => false
    | some _, _ => false
    | none, _ => sequentialFrom none rest

/-- Every request of the trace is settled before anything else happens, in particular
before the next request is issued or `close` is called. -/
def strictlySequential (tr : List Event) : Bool := sequentialFrom none tr

/-! ## The body of the second `try` as a loop over a table -/

/-- The ten requests of `main` for a script hash, a transaction id and a block height. -/
def fixedRequests (scriptHash txId : String) (height : Nat) : List Request :=
  [ .server_version "Test" "1.4",
    .blockchainEstimatefee 1,
    .blockchainEstimatefee 4,
    .blockchainEstimatefee 10,
    .blockchainScripthash_getBalance scriptHash,
    .blockchainScripthash_getHistory scriptHash,
    .request "blockchain.transaction.get" [.str txId, .bool false],
    .blockchainScripthash_listunspent scriptHash,
    .request "blockchain.block.header" [.num 12345],
    .blockchainTransaction_getMerkle txId height ]

/-- The ten calls of the second `try` block with the text each result is logged under. -/
def labelledCalls (argv : Argv) (testnetScriptHash mainnetScriptHash : String) :
    List (Request × String) :=
  let scriptHash := if argv.testnet then testnetScriptHash else mainnetScriptHash
  [ (.server_version "Test" "1.4", "Version: "),
    (.blockchainEstimatefee 1, "Fee estimate 1 blocks: "),
    (.blockchainEstimatefee 4, "Fee estimate 4 blocks: "),
    (.blockchainEstimatefee 10, "Fee estimate 10 blocks: "),
    (.blockchainScripthash_getBalance scriptHash, "\x7b balance \x7d"),
    (.blockchainScripthash_getHistory scriptHash, "Script hash history "),
    (.request "blockchain.transaction.get"
      [.str (if argv.testnet then testnetTxId else mainnetTxId), .bool false], "Testnet Tx "),
    (.blockchainScripthash_listunspent scriptHash, "Testnet Utxos "),
    (.request "blockchain.block.header" [.num 12345], "Block 12345 header: "),
    (.blockchainTransaction_getMerkle
      (if argv.testnet then testnetTxId else mainnetTxId)
      (if argv.testnet then testnetTxBlockHeight else mainnetTxBlockHeight),
      "Merkel path for txid : ") ]

/-- The requests whose result `main` interpolates into a template literal (main.js 117,
119, 122, 125, 141); the results of the others go through `JSON.stringify` or are handed to
`console.log` as an object. -/
def interpolated : Request → Bool
  | .server_version _ _ => true
  | .blockchainEstimatefee _ => true
  | .request method _ => method == "blockchain.transaction.get"
  | _ => false

/-- Straight-line code `const x = await ecl.call(...); console.log(label, x); ...` for a
table of calls: a rejected call throws and the rest is skipped, and so does a template
literal whose string conversion throws. -/
def callAll (ecl : ElectrumCli) : List (Request × String) → Prog Unit
  | [] => pure ()
  | (r, label) :: rest => do
    let v ← await ecl r
    if interpolated r then console_log_template label v else console_log (.value label v)
    callAll ecl rest

/-- What the second `try` block of `main` does on a table of calls: the result it ends
with and the events it adds.  A fulfilled call is logged and the next one follows; a rejected
call ends the block; so does a fulfilled call whose result is interpolated and cannot be
converted to a string. -/
inductive CallRun : List (Request × String) → Except Err Unit → List Event → Prop
  | done : CallRun [] (.ok ()) []
  | fulfilled (r : Request) (label : String) (v : Val) (rest : List (Request × String))
      (res : Except Err Unit) (ev : List Event) :
      (interpolated r = true → v.toStringThrows = false) →
      CallRun rest res ev →
      CallRun ((r, label) :: rest) res
        (.issued r :: .settled r (.fulfilled v) :: .log (.value label v) :: ev)
  | rejected (r : Request) (label : String) (e : Err) (rest : List (Request × String)) :
      CallRun ((r, label) :: rest) (.error e) [.issued r, .settled r (.rejected e)]
  | threw (r : Request) (label : String) (v : Val) (rest : List (Request × String)) :
      interpolated r = true → v.toStringThrows = true →
      CallRun ((r, label) :: rest) (.error cannotConvert)
        [.issued r, .settled r (.fulfilled v)]

/-- The events up to and including the call of `connect`. -/
def header (argv : Argv) : List Event :=
  [ .log (.text ("Connecting to Electrum server " ++ electrumProto argv ++ "://" ++
      electrumHost argv ++ ":" ++ electrumPort argv)),
    .construct (electrumPort argv) (electrumHost argv) (electrumProto argv),
    .connectCalled ]

/-- What the `catch` of the second `try` block logs. -/
def caught : Except Err Unit → List Event
  | .ok _ => []
  | .error e => [.log (.thrown e)]

/-- The result of `main` when its last statement `await ecl.close()` settles as `s`. -/
def closeResult : Settled Unit → Except Err Unit
  | .fulfilled _ => .ok ()
  | .rejected e => .error e

/-! ## Sample inputs -/

/-- A command line: plain TCP to the default host and port, testnet. -/
def sampleArgv : Argv := { host := "127.0.0.1", port := "50001", ssl := false, testnet := true }

/-- The same command line without `--testnet`. -/
def sampleArgvMainnet : Argv :=
  { host := "127.0.0.1", port := "50001", ssl := false, testnet := false }

/-- A server that fulfils everything. -/
def cliAllFulfilled : ElectrumCli :=
  { connect := fun _ => .fulfilled ()
    answer := fun _ _ => .fulfilled (.str "result")
    close := fun _ => .fulfilled () }

/-- A server that cannot be reached. -/
def cliConnectRefused : ElectrumCli :=
  { connect := fun _ => .rejected "ECONNREFUSED"
    answer := fun _ _ => .fulfilled (.str "result")
    close := fun _ => .fulfilled () }

/-- A server that fulfils everything except `blockchain.scripthash.get_history`. -/
def cliHistoryRejected : ElectrumCli :=
  { connect := fun _ => .fulfilled ()
    answer := fun _ r =>
      match r with
      | .blockchainScripthash_getHistory _ => .rejected "history too large"
      | _ => .fulfilled (.str "result")
    close := fun _ => .fulfilled () }

/-- A server that fulfils everything, and whose answer to `server.version` is the object
with the single member `toString` equal to 1. -/
def cliVersionObject : ElectrumCli :=
  { connect := fun _ => .fulfilled ()
    answer := fun _ r =>
      match r with
      | .server_version _ _ => .fulfilled (.obj (.cons "toString" (.num "1") .nil))
      | _ => .fulfilled (.str "result")
    close := fun _ => .fulfilled () }

/-- The output script of each of the two fixture addresses, as `bitcoinjs-lib` computes
them: P2WPKH for the testnet one when the table says `tb`, P2SH for the mainnet one when the
table has script-hash version `0x05`; anything else throws. -/
def sampleToOutputScript (address : String) (network : Network) : Except Err (List Byte) :=
  if address = fundedTestnetAddress ∧ network.bech32 = "tb" then
    .ok [0x00, 0x14, 0xf4, 0xa2, 0xa2, 0x61, 0x8a, 0x9f, 0x67, 0x17, 0x91, 0x52, 0x17, 0x11,
      0xaf, 0xf5, 0x70, 0x57, 0x4a, 0x3f, 0x12, 0x53]
  else if address = fundedMainnetAddress ∧ network.scriptHash = 0x05 then
    .ok [0xa9, 0x14, 0x3d, 0x57, 0x56, 0xcc, 0x64, 0x5e, 0xbe, 0x4a, 0xd4, 0x30, 0x35, 0x52,
      0x57, 0xca, 0x89, 0x40, 0x14, 0x43, 0x89, 0x76, 0x87]
  else
    .error (address ++ " has no matching Script")

/-- SHA-256 on the two fixture scripts (the true digests), thirty-two zero bytes elsewhere. -/
def sampleSha256 (script : List Byte) : List Byte :=
  if script = [0x00, 0x14, 0xf4, 0xa2, 0xa2, 0x61, 0x8a, 0x9f, 0x67, 0x17, 0x91, 0x52, 0x17,
      0x11, 0xaf, 0xf5, 0x70, 0x57, 0x4a, 0x3f, 0x12, 0x53] then
    [0x37, 0xd3, 0x43, 0x73, 0x61, 0x3f, 0x7f, 0x46, 0x7c, 0x78, 0x96, 0x97, 0x79, 0x5b, 0x2d,
      0xcb, 0x13, 0xde, 0x68, 0xec, 0xee, 0x4d, 0xc2, 0xa0, 0xd4, 0x48, 0x87, 0x2a, 0xa7, 0x04,
      0x9b, 0x8c]
  else if script = [0xa9, 0x14, 0x3d, 0x57, 0x56, 0xcc, 0x64, 0x5e, 0xbe, 0x4a, 0xd4, 0x30,
      0x35, 0x52, 0x57, 0xca, 0x89, 0x40, 0x14, 0x43, 0x89, 0x76, 0x87] then
    [0x2c, 0xe5, 0x15, 0x12, 0x19, 0xae, 0xe0, 0x3f, 0x9b, 0x21, 0x23, 0xf6, 0x8c, 0xe1, 0x71,
      0xe1, 0x09, 0x1e, 0x1c, 0x94, 0x60, 0xa8, 0xa8, 0xa0, 0xab, 0xc5, 0x20, 0xb5, 0x93, 0x53,
      0x0e, 0xbf]
  else
    List.replicate 32 0

/-! ## Unfolding lemmas -/

theorem prog_bind_apply {α β : Type} (m : Prog α) (f : α → Prog β) (tr : List Event) :
    (m >>= f) tr = match m tr with
      | (.ok a, tr1) => f a tr1
      | (.error e, tr1) => (.error e, tr1) := rfl

theorem prog_tryCatch_apply {α : Type} (m : Prog α) (h : Err → Prog α) (tr : List Event) :
    (tryCatch m h) tr = match m tr with
      | (.ok a, tr1) => (.ok a, tr1)
      | (.error e, tr1) => h e tr1 := rfl

theorem prog_throw_apply {α : Type} (e : Err) (tr : List Event) :
    (throw e : Prog α) tr = (.error e, tr) := rfl

theorem prog_pure_apply {α : Type} (a : α) (tr : List Event) :
    (Pure.pure a : Prog α) tr = (.ok a, tr) := rfl

theorem emit_apply (e : Event) (tr : List Event) : emit e tr = (.ok (), tr ++ [e]) := rfl

theorem await_apply (ecl : ElectrumCli) (r : Request) (tr : List Event) :
    await ecl r tr = match ecl.answer (tr ++ [.issued r]) r with
      | .fulfilled v => (.ok v, tr ++ [.issued r] ++ [.settled r (.fulfilled v)])
      | .rejected e => (.error e, tr ++ [.issued r] ++ [.settled r (.rejected e)]) := by
  simp only [await]
  cases h : ecl.answer (tr ++ [.issued r]) r <;> rfl

theorem prog_bind_pure_unit (m : Prog Unit) : (m >>= fun _ => (pure () : Prog Unit)) = m := by
  funext tr
  rw [prog_bind_apply]
  rcases h : m tr with ⟨res, tr1⟩
  cases res <;> rfl

/-- The second `try` block of `main` is `callAll` on `labelledCalls`. -/
theorem main_eq (argv : Argv) (ht hm : String) (ecl : ElectrumCli) :
    main argv ht hm ecl = (do
      console_log (.text ("Connecting to Electrum server " ++ electrumProto argv ++ "://" ++
        electrumHost argv ++ ":" ++ electrumPort argv))
      emit (.construct (electrumPort argv) (electrumHost argv) (electrumProto argv))
      try
        awaitConnect ecl
      catch e =>
        console_log (.text "Error connecting to Electrum:")
        console_log (.thrown e)
        throw "Error"
      try
        callAll ecl (labelledCalls argv ht hm)
      catch e =>
        console_log (.thrown e)
      awaitClose ecl) := by
  simp [main, labelledCalls, callAll, prog_bind_pure_unit, interpolated]

theorem console_log_template_apply (label : String) (v : Val) (tr : List Event) :
    console_log_template label v tr =
      if v.toStringThrows = true then (.error cannotConvert, tr)
      else (.ok (), tr ++ [.log (.value label v)]) := by
  unfold console_log_template
  split <;> rfl

theorem callAll_cons (ecl : ElectrumCli) (r : Request) (label : String)
    (rest : List (Request × String)) (tr : List Event) :
    callAll ecl ((r, label) :: rest) tr =
      match ecl.answer (tr ++ [.issued r]) r with
      | .fulfilled v =>
        if interpolated r = true ∧ v.toStringThrows = true then
          (.error cannotConvert, tr ++ [.issued r, .settled r (.fulfilled v)])
        else
          callAll ecl rest
            (tr ++ [.issued r, .settled r (.fulfilled v), .log (.value label v)])
      | .rejected e => (.error e, tr ++ [.issued r, .settled r (.rejected e)]) := by
  simp only [callAll, prog_bind_apply, await_apply]
  cases ecl.answer (tr ++ [.issued r]) r with
  | rejected e => simp
  | fulfilled v =>
    by_cases hi : interpolated r = true
    · by_cases ht : v.toStringThrows = true
      · simp [hi, ht, prog_bind_apply, console_log_template_apply]
      · simp [hi, ht, prog_bind_apply, console_log_template_apply]
    · simp [hi, prog_bind_apply, console_log, emit_apply]

theorem callAll_run (ecl : ElectrumCli) (l : List (Request × String)) :
    ∀ tr : List Event, ∃ res ev, callAll ecl l tr = (res, tr ++ ev) ∧ CallRun l res ev := by
  induction l with
  | nil => intro tr; exact ⟨.ok (), [], by simp [callAll, prog_pure_apply], .done⟩
  | cons c rest ih =>
    intro tr
    obtain ⟨r, label⟩ := c
    rw [callAll_cons]
    cases h : ecl.answer (tr ++ [.issued r]) r with
    | fulfilled v =>
      by_cases hthrow : interpolated r = true ∧ v.toStringThrows = true
      · exact ⟨.error cannotConvert, _, by simp [hthrow],
          .threw r label v rest hthrow.1 hthrow.2⟩
      · obtain ⟨res, ev, heq, hrun⟩ :=
          ih (tr ++ [.issued r, .settled r (.fulfilled v), .log (.value label v)])
        refine ⟨res, _, by simp [hthrow, heq], .fulfilled r label v rest res ev ?_ hrun⟩
        intro hi
        cases hv : v.toStringThrows with
        | false => rfl
        | true => exact absurd ⟨hi, hv⟩ hthrow
    | rejected e => exact ⟨.error e, _, rfl, .rejected r label e rest⟩

theorem awaitClose_apply (ecl : ElectrumCli) (tr : List Event) :
    awaitClose ecl tr = (closeResult (ecl.close (tr ++ [.closeCalled])),
      tr ++ [.closeCalled, .closeSettled (ecl.close (tr ++ [.closeCalled]))]) := by
  simp only [awaitClose]
  cases h : ecl.close (tr ++ [.closeCalled]) <;> simp [awaitSettled, closeResult, Prog.pure, Prog.throw]

/-- The run of `main` from the empty trace, one `match` per settlement. -/
theorem main_apply (argv : Argv) (ht hm : String) (ecl : ElectrumCli) :
    main argv ht hm ecl [] =
      match ecl.connect (header argv) with
      | .rejected e => (.error "Error", header argv ++
          [ .connectSettled (.rejected e),
            .log (.text "Error connecting to Electrum:"),
            .log (.thrown e) ])
      | .fulfilled u =>
        match callAll ecl (labelledCalls argv ht hm)
            (header argv ++ [.connectSettled (.fulfilled u)]) with
        | (res, tr) => awaitClose ecl (tr ++ caught res) := by
  rw [main_eq]
  simp only [prog_bind_apply, prog_tryCatch_apply, prog_throw_apply, console_log, emit_apply,
    awaitConnect, List.nil_append, List.singleton_append, List.cons_append, header]
  cases ecl.connect _ with
  | rejected e => simp [awaitSettled, Prog.throw]
  | fulfilled u =>
    simp only [awaitSettled, Prog.pure]
    rcases callAll ecl (labelledCalls argv ht hm) _ with ⟨res, tr⟩
    cases res <;> simp [caught]

/-! ## Facts about `CallRun` -/

theorem requestsIssued_append (a b : List Event) :
    requestsIssued (a ++ b) = requestsIssued a ++ requestsIssued b := by
  simp [requestsIssued, List.filterMap_append]

theorem sequentialFrom_append (a b : List Event) :
    ∀ i : Option Request, sequentialFrom i a = true →
      sequentialFrom i (a ++ b) = sequentialFrom none b := by
  induction a with
  | nil =>
    intro i h
    cases i <;> simp_all [sequentialFrom]
  | cons x rest ih =>
    intro i h
    cases i <;> cases x <;> simp_all [sequentialFrom]

theorem strictlySequential_append (a b : List Event)
    (ha : strictlySequential a = true) (hb : strictlySequential b = true) :
    strictlySequential (a ++ b) = true := by
  unfold strictlySequential at *
  rw [sequentialFrom_append a b none ha, hb]

namespace CallRun

theorem events {l : List (Request × String)} {res : Except Err Unit} {ev : List Event}
    (h : CallRun l res ev) :
    ∀ x ∈ ev, (∃ r, x = .issued r) ∨ (∃ r s, x = .settled r s) ∨
      (∃ label v, x = .log (.value label v)) := by
  induction h with
  | done => simp
  | fulfilled r label v rest res ev _ _ ih =>
    intro x hx
    simp only [List.mem_cons] at hx
    rcases hx with rfl | rfl | rfl | hx
    · exact .inl ⟨r, rfl⟩
    · exact .inr (.inl ⟨r, _, rfl⟩)
    · exact .inr (.inr ⟨label, v, rfl⟩)
    · exact ih x hx
  | rejected r label e rest =>
    intro x hx
    simp only [List.mem_cons, List.mem_singleton, List.not_mem_nil, or_false] at hx
    rcases hx with rfl | rfl
    · exact .inl ⟨r, rfl⟩
    · exact .inr (.inl ⟨r, _, rfl⟩)
  | threw r label v rest _ _ =>
    intro x hx
    simp only [List.mem_cons, List.mem_singleton, List.not_mem_nil, or_false] at hx
    rcases hx with rfl | rfl
    · exact .inl ⟨r, rfl⟩
    · exact .inr (.inl ⟨r, _, rfl⟩)

theorem issued_initial {l : List (Request × String)} {res : Except Err Unit}
    {ev : List Event} (h : CallRun l res ev) :
    requestsIssued ev <+: l.map Prod.fst := by
  induction h with
  | done => simp [requestsIssued]
  | fulfilled r label v rest res ev _ _ ih =>
    simpa [requestsIssued, List.cons_prefix_cons] using ih
  | rejected r label e rest =>
    simp [requestsIssued, List.cons_prefix_cons]
  | threw r label v rest _ _ =>
    simp [requestsIssued, List.cons_prefix_cons]

theorem of_ok {l : List (Request × String)} {res : Except Err Unit} {ev : List Event}
    (h : CallRun l res ev) (u : Unit) (hres : res = .ok u) :
    requestsIssued ev = l.map Prod.fst ∧ ∀ r e, Event.settled r (.rejected e) ∉ ev := by
  induction h with
  | done => simp [requestsIssued]
  | fulfilled r label v rest res ev _ _ ih =>
    obtain ⟨h1, h2⟩ := ih hres
    refine ⟨by simpa [requestsIssued] using h1, ?_⟩
    intro r1 e1 hmem
    simp only [List.mem_cons] at hmem
    rcases hmem with h | h | h | h
    · cases h
    · cases h
    · cases h
    · exact h2 r1 e1 h
  | rejected r label e rest => cases hres
  | threw r label v rest _ _ => cases hres

/-- A block that ends in an error ends either with a rejected request or with a fulfilled
request whose interpolated result cannot be converted; nothing was rejected before. -/
theorem of_error {l : List (Request × String)} {res : Except Err Unit} {ev : List Event}
    (h : CallRun l res ev) (e : Err) (hres : res = .error e) :
    ∃ pre r, (∀ r1 e1, Event.settled r1 (.rejected e1) ∉ pre) ∧
      (ev = pre ++ [.issued r, .settled r (.rejected e)] ∨
        ∃ v, ev = pre ++ [.issued r, .settled r (.fulfilled v)] ∧
          interpolated r = true ∧ v.toStringThrows = true) := by
  induction h with
  | done => cases hres
  | fulfilled r label v rest res ev _ _ ih =>
    obtain ⟨pre, r0, h2, h1⟩ := ih hres
    refine ⟨.issued r :: .settled r (.fulfilled v) :: .log (.value label v) :: pre, r0,
      ?_, ?_⟩
    · intro r1 e1 hmem
      simp only [List.mem_cons] at hmem
      rcases hmem with h | h | h | h
      · cases h
      · cases h
      · cases h
      · exact h2 r1 e1 h
    · rcases h1 with h1 | ⟨v0, h1, hi, hv⟩
      · exact .inl (by simp [h1])
      · exact .inr ⟨v0, by simp [h1], hi, hv⟩
  | rejected r label e1 rest =>
    cases hres
    exact ⟨[], r, by simp, .inl rfl⟩
  | threw r label v rest hi hv =>
    exact ⟨[], r, by simp, .inr ⟨v, rfl, hi, hv⟩⟩

theorem sequential {l : List (Request × String)} {res : Except Err Unit} {ev : List Event}
    (h : CallRun l res ev) : strictlySequential ev = true := by
  induction h with
  | done => rfl
  | fulfilled r label v rest res ev _ _ ih =>
    simpa [strictlySequential, sequentialFrom] using ih
  | rejected r label e rest => simp [strictlySequential, sequentialFrom]
  | threw r label v rest _ _ => simp [strictlySequential, sequentialFrom]

theorem settled_mem {l : List (Request × String)} {res : Except Err Unit} {ev : List Event}
    (h : CallRun l res ev) (r : Request) (s : Settled Val) (hmem : Event.settled r s ∈ ev) :
    r ∈ l.map Prod.fst := by
  induction h with
  | done => simp at hmem
  | fulfilled r1 label v rest res ev _ _ ih =>
    simp only [List.mem_cons] at hmem
    rcases hmem with h | h | h | h
    · cases h
    · cases h; simp
    · cases h
    · simp only [List.map_cons]
      exact List.mem_cons_of_mem _ (ih h)
  | rejected r1 label e rest =>
    simp only [List.mem_cons, List.mem_singleton, List.not_mem_nil, or_false] at hmem
    rcases hmem with h | h
    · cases h
    · cases h; simp
  | threw r1 label v rest _ _ =>
    simp only [List.mem_cons, List.mem_singleton, List.not_mem_nil, or_false] at hmem
    rcases hmem with h | h
    · cases h
    · cases h; simp

theorem cons_inv {r : Request} {label : String} {rest : List (Request × String)}
    {res : Except Err Unit} {ev : List Event} (h : CallRun ((r, label) :: rest) res ev) :
    (∃ v ev1, ev = .issued r :: .settled r (.fulfilled v) :: .log (.value label v) :: ev1 ∧
        CallRun rest res ev1) ∨
      (∃ e, res = .error e ∧ ev = [.issued r, .settled r (.rejected e)]) ∨
      (∃ v, res = .error cannotConvert ∧ ev = [.issued r, .settled r (.fulfilled v)]) := by
  cases h with
  | fulfilled _ _ v _ _ ev1 _ h1 => exact .inl ⟨v, ev1, rfl, h1⟩
  | rejected _ _ e _ => exact .inr (.inl ⟨e, rfl, rfl⟩)
  | threw _ _ v _ _ _ => exact .inr (.inr ⟨v, rfl, rfl⟩)

theorem not_mem_of_other {l : List (Request × String)} {res : Except Err Unit}
    {ev : List Event} (h : CallRun l res ev) (x : Event)
    (h1 : ∀ r, x ≠ .issued r) (h2 : ∀ r s, x ≠ .settled r s)
    (h3 : ∀ label v, x ≠ .log (.value label v)) : x ∉ ev := by
  intro hx
  rcases h.events x hx with ⟨r, hr⟩ | ⟨r, s, hr⟩ | ⟨label, v, hr⟩
  · exact h1 r hr
  · exact h2 r s hr
  · exact h3 label v hr

/-- A request rejected in the block is the last thing of the block, and the first
rejection. -/
theorem of_rejected {l : List (Request × String)} {res : Except Err Unit} {ev : List Event}
    (h : CallRun l res ev) (r : Request) (e : Err)
    (hmem : Event.settled r (.rejected e) ∈ ev) :
    res = .error e ∧ ∃ pre, ev = pre ++ [.issued r, .settled r (.rejected e)] ∧
      ∀ r1 e1, Event.settled r1 (.rejected e1) ∉ pre := by
  cases res with
  | ok u => exact absurd hmem ((h.of_ok u rfl).2 r e)
  | error e0 =>
    obtain ⟨pre, r0, hpre, hev | ⟨v, hev, -, -⟩⟩ := h.of_error e0 rfl
    · rw [hev] at hmem
      simp only [List.mem_append, List.mem_cons, List.mem_singleton, List.not_mem_nil,
        or_false] at hmem
      rcases hmem with hm | hm | hm
      · exact absurd hm (hpre r e)
      · cases hm
      · cases hm
        exact ⟨rfl, pre, hev, hpre⟩
    · rw [hev] at hmem
      simp only [List.mem_append, List.mem_cons, List.mem_singleton, List.not_mem_nil,
        or_false] at hmem
      rcases hmem with hm | hm | hm
      · exact absurd hm (hpre r e)
      · cases hm
      · cases hm

/-- A block in which no request is rejected and every interpolated result converts to a
string runs to its end. -/
theorem of_clean {l : List (Request × String)} {res : Except Err Unit} {ev : List Event}
    (h : CallRun l res ev)
    (hok : ∀ r e, Event.settled r (.rejected e) ∉ ev)
    (hstr : ∀ r v, Event.settled r (.fulfilled v) ∈ ev → interpolated r = true →
      v.toStringThrows = false) :
    res = .ok () ∧ requestsIssued ev = l.map Prod.fst := by
  cases res with
  | ok u => exact ⟨rfl, (h.of_ok u rfl).1⟩
  | error e0 =>
    exfalso
    obtain ⟨pre, r0, -, hev | ⟨v, hev, hi, hv⟩⟩ := h.of_error e0 rfl
    · exact hok r0 e0 (by simp [hev])
    · have h1 := hstr r0 v (by simp [hev]) hi
      rw [hv] at h1
      cases h1

end CallRun

/-! ## The two shapes of a run of `main` -/

/-- Either `connect` is rejected and `main` throws right after logging, or it is fulfilled,
the second `try` block runs as some `CallRun`, its `catch` logs, and `close` is awaited. -/
theorem main_run (argv : Argv) (ht hm : String) (ecl : ElectrumCli) :
    (∃ e, main argv ht hm ecl [] = (.error "Error", header argv ++
        [ .connectSettled (.rejected e),
          .log (.text "Error connecting to Electrum:"),
          .log (.thrown e) ])) ∨
    (∃ res ev s, CallRun (labelledCalls argv ht hm) res ev ∧
      main argv ht hm ecl [] = (closeResult s,
        header argv ++ .connectSettled (.fulfilled ()) ::
          (ev ++ (caught res ++ [.closeCalled, .closeSettled s])))) := by
  rw [main_apply]
  cases ecl.connect (header argv) with
  | rejected e => exact .inl ⟨e, rfl⟩
  | fulfilled u =>
    obtain ⟨res, ev, heq, hrun⟩ := callAll_run ecl (labelledCalls argv ht hm)
      (header argv ++ [.connectSettled (.fulfilled u)])
    refine .inr ⟨res, ev, ecl.close (header argv ++ [.connectSettled (.fulfilled u)] ++ ev ++
      caught res ++ [.closeCalled]), hrun, ?_⟩
    simp only [heq, awaitClose_apply]
    simp

/-- The shape of a run in whose trace `connect` is fulfilled. -/
theorem main_run_of_connected (argv : Argv) (ht hm : String) (ecl : ElectrumCli)
    (hc : Event.connectSettled (.fulfilled ()) ∈ (main argv ht hm ecl []).2) :
    ∃ res ev s, CallRun (labelledCalls argv ht hm) res ev ∧
      main argv ht hm ecl [] = (closeResult s,
        header argv ++ .connectSettled (.fulfilled ()) ::
          (ev ++ (caught res ++ [.closeCalled, .closeSettled s]))) := by
  rcases main_run argv ht hm ecl with ⟨e, hrun⟩ | h
  · rw [hrun] at hc
    simp [header] at hc
  · exact h

theorem labelledCalls_requests (argv : Argv) (ht hm : String) :
    (labelledCalls argv ht hm).map Prod.fst =
      fixedRequests (if argv.testnet then ht else hm)
        (if argv.testnet then testnetTxId else mainnetTxId)
        (if argv.testnet then testnetTxBlockHeight else mainnetTxBlockHeight) := rfl

theorem requestsIssued_header (argv : Argv) : requestsIssued (header argv) = [] := rfl

theorem requestsIssued_caught (res : Except Err Unit) : requestsIssued (caught res) = [] := by
  cases res <;> rfl

theorem strictlySequential_caught (res : Except Err Unit) :
    strictlySequential (caught res) = true := by
  cases res <;> rfl

theorem not_mem_caught (res : Except Err Unit) (x : Event)
    (hx : ∀ e, x ≠ .log (.thrown e)) : x ∉ caught res := by
  cases res with
  | ok u => simp [caught]
  | error e => simpa [caught] using hx e

/-! ## Claims about `main` -/

/-- C2, as the code has it: in every run of `main` in which `connect` is rejected, no request
is issued, `close` is not called, and `main` rejects with the fresh `Error`. -/
theorem main_connect_rejected_no_close (argv : Argv) (ht hm : String) (ecl : ElectrumCli)
    (hc : ∃ e, Event.connectSettled (.rejected e) ∈ (main argv ht hm ecl []).2) :
    requestsIssued (main argv ht hm ecl []).2 = [] ∧
      Event.closeCalled ∉ (main argv ht hm ecl []).2 ∧
      (main argv ht hm ecl []).1 = .error "Error" := by
  rcases main_run argv ht hm ecl with ⟨e, hrun⟩ | ⟨res, ev, s, hcr, hrun⟩
  · rw [hrun]
    simp [header, requestsIssued]
  · exfalso
    obtain ⟨e, he⟩ := hc
    rw [hrun] at he
    simp only [List.mem_append, List.mem_cons, header] at he
    rcases he with he | he | he | he | he
    · simp at he
    · cases he
    · rcases hcr.events _ he with ⟨r, h⟩ | ⟨r, s1, h⟩ | ⟨l, v, h⟩ <;> cases h
    · exact not_mem_caught res _ (by intro e1 h; cases h) he
    · simp at he

/-- The amended C2 at a server that refuses the connection. -/
theorem main_connect_rejected_no_close_witness :
    (∃ e, Event.connectSettled (.rejected e) ∈
        (main sampleArgv "ht" "hm" cliConnectRefused []).2) ∧
      requestsIssued (main sampleArgv "ht" "hm" cliConnectRefused []).2 = [] ∧
      Event.closeCalled ∉ (main sampleArgv "ht" "hm" cliConnectRefused []).2 ∧
      (main sampleArgv "ht" "hm" cliConnectRefused []).1 = .error "Error" :=
  ⟨⟨"ECONNREFUSED", by decide⟩,
    main_connect_rejected_no_close sampleArgv "ht" "hm" cliConnectRefused
      ⟨"ECONNREFUSED", by decide⟩⟩

/-- C2 as stated fails: with a server that refuses the connection, `connect` is rejected and
`close` is never called. -/
theorem main_connect_rejected_close_counterexample :
    ¬ ((∃ e, Event.connectSettled (.rejected e) ∈
          (main sampleArgv "ht" "hm" cliConnectRefused []).2) →
        requestsIssued (main sampleArgv "ht" "hm" cliConnectRefused []).2 = [] ∧
          Event.closeCalled ∈ (main sampleArgv "ht" "hm" cliConnectRefused []).2) := by
  intro h
  have h2 := (h ⟨"ECONNREFUSED", by decide⟩).2
  revert h2
  decide

theorem no_close_rejected_of_all (tr : List Event)
    (h : tr.all (fun x => match x with
      | .closeSettled (.rejected _) => false
      | _ => true) = true) :
    ∀ e, Event.closeSettled (.rejected e) ∉ tr := by
  intro e hmem
  have h1 := List.all_eq_true.mp h _ hmem
  simp at h1

theorem no_request_rejected_of_all (tr : List Event)
    (h : tr.all (fun x => match x with
      | .settled _ (.rejected _) => false
      | _ => true) = true) :
    ∀ r e, Event.settled r (.rejected e) ∉ tr := by
  intro r e hmem
  have h1 := List.all_eq_true.mp h _ hmem
  simp at h1

theorem no_unconvertible_result_of_all (tr : List Event)
    (h : tr.all (fun x => match x with
      | .settled r (.fulfilled v) => !(interpolated r && v.toStringThrows)
      | _ => true) = true) :
    ∀ r v, Event.settled r (.fulfilled v) ∈ tr → interpolated r = true →
      v.toStringThrows = false := by
  intro r v hmem hi
  have h1 := List.all_eq_true.mp h _ hmem
  simpa [hi] using h1

/-- C3: provided the `close` call is not rejected, `main` rejects exactly when `connect` is
rejected; after a fulfilled `connect` it completes normally whatever the requests do. -/
theorem main_rejects_iff_connect_rejected (argv : Argv) (ht hm : String) (ecl : ElectrumCli)
    (hclose : ∀ e, Event.closeSettled (.rejected e) ∉ (main argv ht hm ecl []).2) :
    ((∃ e, (main argv ht hm ecl []).1 = .error e) ↔
        ∃ e, Event.connectSettled (.rejected e) ∈ (main argv ht hm ecl []).2) ∧
      (Event.connectSettled (.fulfilled ()) ∈ (main argv ht hm ecl []).2 →
        (main argv ht hm ecl []).1 = .ok ()) := by
  rcases main_run argv ht hm ecl with ⟨e, hrun⟩ | ⟨res, ev, s, hcr, hrun⟩
  · rw [hrun]
    refine ⟨⟨fun _ => ⟨e, by simp⟩, fun _ => ⟨"Error", rfl⟩⟩, ?_⟩
    intro h
    simp [header] at h
  · rw [hrun] at hclose ⊢
    have hs : s = .fulfilled () := by
      cases s with
      | fulfilled u => rfl
      | rejected e => exact absurd (by simp) (hclose e)
    subst hs
    refine ⟨⟨fun h => ?_, fun h => ?_⟩, fun _ => rfl⟩
    · obtain ⟨e, he⟩ := h
      simp [closeResult] at he
    · exfalso
      obtain ⟨e, he⟩ := h
      simp only [List.mem_append, List.mem_cons, header] at he
      rcases he with he | he | he | he | he
      · simp at he
      · cases he
      · exact hcr.not_mem_of_other _ (by intro _ h; cases h) (by intro _ _ h; cases h)
          (by intro _ _ h; cases h) he
      · exact not_mem_caught res _ (by intro e1 h; cases h) he
      · simp at he

/-- C3 at a server that rejects `get_history` and fulfils `close`. -/
theorem main_rejects_iff_connect_rejected_witness :
    (∀ e, Event.closeSettled (.rejected e) ∉
        (main sampleArgv "ht" "hm" cliHistoryRejected []).2) ∧
      ((∃ e, (main sampleArgv "ht" "hm" cliHistoryRejected []).1 = .error e) ↔
        ∃ e, Event.connectSettled (.rejected e) ∈
          (main sampleArgv "ht" "hm" cliHistoryRejected []).2) ∧
      (Event.connectSettled (.fulfilled ()) ∈
          (main sampleArgv "ht" "hm" cliHistoryRejected []).2 →
        (main sampleArgv "ht" "hm" cliHistoryRejected []).1 = .ok ()) :=
  ⟨no_close_rejected_of_all _ (by decide),
    main_rejects_iff_connect_rejected sampleArgv "ht" "hm" cliHistoryRejected
      (no_close_rejected_of_all _ (by decide))⟩

/-- C8: in every run of `main` in which `connect` is fulfilled, whatever the requests do,
`close` is called exactly once; it is called at the very end, when every request issued has
settled, and nothing is issued after it. -/
theorem main_close_once_after_requests (argv : Argv) (ht hm : String) (ecl : ElectrumCli)
    (hc : Event.connectSettled (.fulfilled ()) ∈ (main argv ht hm ecl []).2) :
    (main argv ht hm ecl []).2.count .closeCalled = 1 ∧
      ∃ pre s, (main argv ht hm ecl []).2 = pre ++ [.closeCalled, .closeSettled s] ∧
        Event.closeCalled ∉ pre ∧
        strictlySequential pre = true ∧
        requestsIssued pre = requestsIssued (main argv ht hm ecl []).2 := by
  obtain ⟨res, ev, s, hcr, hrun⟩ := main_run_of_connected argv ht hm ecl hc
  rw [hrun]
  have h1 : Event.closeCalled ∉ ev :=
    hcr.not_mem_of_other _ (by intro _ h; cases h) (by intro _ _ h; cases h)
      (by intro _ _ h; cases h)
  have h2 : Event.closeCalled ∉ caught res := not_mem_caught res _ (by intro _ h; cases h)
  have h3 : Event.closeCalled ∉ header argv ++ .connectSettled (.fulfilled ()) ::
      (ev ++ caught res) := by
    simp [header, h1, h2]
  refine ⟨?_, header argv ++ .connectSettled (.fulfilled ()) :: (ev ++ caught res), s,
    by simp, h3, ?_, by simp [requestsIssued_append, requestsIssued]⟩
  · have h4 : List.count Event.closeCalled (header argv ++ .connectSettled (.fulfilled ()) ::
        (ev ++ caught res)) = 0 := List.count_eq_zero.mpr h3
    have h5 : header argv ++ .connectSettled (.fulfilled ()) ::
        (ev ++ (caught res ++ [.closeCalled, .closeSettled s])) =
        (header argv ++ .connectSettled (.fulfilled ()) :: (ev ++ caught res)) ++
          [.closeCalled, .closeSettled s] := by simp
    simp only [h5, List.count_append, h4]
    simp [List.count_cons]
  · have h6 : strictlySequential (header argv ++ [.connectSettled (.fulfilled ())]) = true := rfl
    have h7 := strictlySequential_append _ _ h6
      (strictlySequential_append _ _ hcr.sequential (strictlySequential_caught res))
    simpa using h7

/-- C8 at a server that rejects `get_history`. -/
theorem main_close_once_after_requests_witness :
    Event.connectSettled (.fulfilled ()) ∈
        (main sampleArgv "ht" "hm" cliHistoryRejected []).2 ∧
      (main sampleArgv "ht" "hm" cliHistoryRejected []).2.count .closeCalled = 1 ∧
      ∃ pre s, (main sampleArgv "ht" "hm" cliHistoryRejected []).2 =
          pre ++ [.closeCalled, .closeSettled s] ∧
        Event.closeCalled ∉ pre ∧
        strictlySequential pre = true ∧
        requestsIssued pre = requestsIssued (main sampleArgv "ht" "hm" cliHistoryRejected []).2 :=
  ⟨by decide, main_close_once_after_requests sampleArgv "ht" "hm" cliHistoryRejected (by decide)⟩

/-- C10, as the code has it: in every run of `main` in which `connect` is fulfilled, the
requests issued are an initial segment of the fixed ten; all ten when no request is rejected
and every result that is interpolated into a template literal converts to a string; and
when a request is rejected it is the first one rejected and the last one issued, and what
follows it is the log of the error, the call of `close` and its settlement. -/
theorem main_issues_initial_segment (argv : Argv) (ht hm : String) (ecl : ElectrumCli)
    (hc : Event.connectSettled (.fulfilled ()) ∈ (main argv ht hm ecl []).2) :
    requestsIssued (main argv ht hm ecl []).2 <+:
        fixedRequests (if argv.testnet then ht else hm)
          (if argv.testnet then testnetTxId else mainnetTxId)
          (if argv.testnet then testnetTxBlockHeight else mainnetTxBlockHeight) ∧
      ((∀ r e, Event.settled r (.rejected e) ∉ (main argv ht hm ecl []).2) →
        (∀ r v, Event.settled r (.fulfilled v) ∈ (main argv ht hm ecl []).2 →
          interpolated r = true → v.toStringThrows = false) →
        requestsIssued (main argv ht hm ecl []).2 =
          fixedRequests (if argv.testnet then ht else hm)
            (if argv.testnet then testnetTxId else mainnetTxId)
            (if argv.testnet then testnetTxBlockHeight else mainnetTxBlockHeight)) ∧
      (∀ r e, Event.settled r (.rejected e) ∈ (main argv ht hm ecl []).2 →
        ∃ pre s, (main argv ht hm ecl []).2 = pre ++
            [.issued r, .settled r (.rejected e), .log (.thrown e), .closeCalled,
              .closeSettled s] ∧
          (∀ r1 e1, Event.settled r1 (.rejected e1) ∉ pre) ∧
          requestsIssued (main argv ht hm ecl []).2 = requestsIssued pre ++ [r]) := by
  obtain ⟨res, ev, s, hcr, hrun⟩ := main_run_of_connected argv ht hm ecl hc
  rw [hrun]
  have hreq : requestsIssued (header argv ++ .connectSettled (.fulfilled ()) ::
      (ev ++ (caught res ++ [.closeCalled, .closeSettled s]))) = requestsIssued ev := by
    rw [show header argv ++ .connectSettled (.fulfilled ()) ::
        (ev ++ (caught res ++ [.closeCalled, .closeSettled s])) =
        (header argv ++ [.connectSettled (.fulfilled ())]) ++
          (ev ++ (caught res ++ [.closeCalled, .closeSettled s])) from by simp]
    simp only [requestsIssued_append, requestsIssued_caught]
    simp [requestsIssued, header]
  have hmem : ∀ r e, Event.settled r (.rejected e) ∈ header argv ++
      .connectSettled (.fulfilled ()) ::
        (ev ++ (caught res ++ [.closeCalled, .closeSettled s])) →
      Event.settled r (.rejected e) ∈ ev := by
    intro r e h
    simp only [List.mem_append, List.mem_cons, header] at h
    rcases h with h | h | h | h | h
    · simp at h
    · cases h
    · exact h
    · exact absurd h (not_mem_caught res _ (by intro e1 h; cases h))
    · simp at h
  rw [hreq, ← labelledCalls_requests]
  refine ⟨hcr.issued_initial, ?_, ?_⟩
  · intro hnone hstr
    exact (hcr.of_clean (fun r e h => hnone r e (by simp [h]))
      (fun r v h => hstr r v (by simp [h]))).2
  · intro r e hin0
    obtain ⟨hres, pre, hev, hpre⟩ := hcr.of_rejected r e (hmem r e hin0)
    subst hres
    refine ⟨header argv ++ .connectSettled (.fulfilled ()) :: pre, s,
      by simp [hev, caught], ?_, by simp [hev, requestsIssued_append, requestsIssued, header]⟩
    intro r1 e1 h
    simp only [List.mem_append, List.mem_cons, header] at h
    rcases h with h | h | h
    · simp at h
    · cases h
    · exact hpre r1 e1 h

/-- The amended C10 at a server that fulfils everything with strings: all ten requests are
issued. -/
theorem main_issues_initial_segment_witness :
    Event.connectSettled (.fulfilled ()) ∈
        (main sampleArgv "ht" "hm" cliAllFulfilled []).2 ∧
      (∀ r e, Event.settled r (.rejected e) ∉
        (main sampleArgv "ht" "hm" cliAllFulfilled []).2) ∧
      (∀ r v, Event.settled r (.fulfilled v) ∈
          (main sampleArgv "ht" "hm" cliAllFulfilled []).2 →
        interpolated r = true → v.toStringThrows = false) ∧
      requestsIssued (main sampleArgv "ht" "hm" cliAllFulfilled []).2 =
        fixedRequests "ht" testnetTxId testnetTxBlockHeight :=
  ⟨by decide, no_request_rejected_of_all _ (by decide),
    no_unconvertible_result_of_all _ (by decide),
    (main_issues_initial_segment sampleArgv "ht" "hm" cliAllFulfilled (by decide)).2.1
      (no_request_rejected_of_all _ (by decide))
      (no_unconvertible_result_of_all _ (by decide))⟩

/-- C10 as stated fails: with a server that fulfils everything and answers `server.version`
with an object that has a member `toString`, `connect` is fulfilled and no request is
rejected, yet the requests issued are not the whole fixed sequence: the template literal of
main.js 117 throws and only the first request is issued. -/
theorem main_issues_initial_segment_counterexample :
    ¬ (Event.connectSettled (.fulfilled ()) ∈
          (main sampleArgv "ht" "hm" cliVersionObject []).2 →
        (∀ r e, Event.settled r (.rejected e) ∉
          (main sampleArgv "ht" "hm" cliVersionObject []).2) →
        requestsIssued (main sampleArgv "ht" "hm" cliVersionObject []).2 =
          fixedRequests "ht" testnetTxId testnetTxBlockHeight) := by
  intro h
  have h2 := h (by decide) (no_request_rejected_of_all _ (by decide))
  revert h2
  decide

/-- C4, as the code has it: for either value of the testnet flag, when the script loads,
`connect` is fulfilled, no request is rejected and every result that is interpolated into a
template literal converts to a string, the requests issued are exactly the ten of
`fixedRequests`, in that order, with script hash, transaction id and height all of the
testnet fixture when the flag is set and all of the mainnet fixture otherwise; and each
request is settled before the next one is issued. -/
theorem script_requests_in_order
    (toOutputScript : String → Network → Except Err (List Byte))
    (sha256 : List Byte → List Byte) (argv : Argv) (ecl : ElectrumCli) (ht hm : String)
    (hloadT : getScriptHash toOutputScript sha256 fundedTestnetAddress = .ok ht)
    (hloadM : getScriptHash toOutputScript sha256 fundedMainnetAddress = .ok hm)
    (hc : Event.connectSettled (.fulfilled ()) ∈ (script toOutputScript sha256 argv ecl).2)
    (hok : ∀ r e, Event.settled r (.rejected e) ∉ (script toOutputScript sha256 argv ecl).2)
    (hstr : ∀ r v, Event.settled r (.fulfilled v) ∈
        (script toOutputScript sha256 argv ecl).2 →
      interpolated r = true → v.toStringThrows = false) :
    requestsIssued (script toOutputScript sha256 argv ecl).2 =
        (if argv.testnet then fixedRequests ht testnetTxId testnetTxBlockHeight
          else fixedRequests hm mainnetTxId mainnetTxBlockHeight) ∧
      strictlySequential (script toOutputScript sha256 argv ecl).2 = true := by
  have hs : script toOutputScript sha256 argv ecl = main argv ht hm ecl [] := by
    simp only [script, hloadT, hloadM]
  rw [hs] at hc hok hstr ⊢
  obtain ⟨res, ev, s, hcr, hrun⟩ := main_run_of_connected argv ht hm ecl hc
  rw [hrun] at hok hstr ⊢
  obtain ⟨hres, h1⟩ := hcr.of_clean (fun r e h => hok r e (by simp [h]))
    (fun r v h => hstr r v (by simp [h]))
  subst hres
  constructor
  · rw [labelledCalls_requests] at h1
    rw [show header argv ++ .connectSettled (.fulfilled ()) ::
        (ev ++ (caught (.ok ()) ++ [.closeCalled, .closeSettled s])) =
        (header argv ++ [.connectSettled (.fulfilled ())]) ++
          (ev ++ [.closeCalled, .closeSettled s]) from by simp [caught]]
    simp only [requestsIssued_append, h1]
    cases argv.testnet <;> simp [requestsIssued, header]
  · have h6 : strictlySequential (header argv ++ [.connectSettled (.fulfilled ())]) = true := rfl
    have h7 : strictlySequential ([.closeCalled, .closeSettled s] : List Event) = true := rfl
    have h8 := strictlySequential_append _ _ h6 (strictlySequential_append _ _ hcr.sequential h7)
    simpa [caught] using h8

/-- The amended C4 at a server that fulfils everything with strings, with the true output
scripts and digests of the two fixture addresses, for the testnet flag set and unset. -/
theorem script_requests_in_order_witness :
    getScriptHash sampleToOutputScript sampleSha256 fundedTestnetAddress =
        .ok "8c9b04a72a8748d4a0c24deeec68de13cb2d5b799796787c467f3f617343d337" ∧
      getScriptHash sampleToOutputScript sampleSha256 fundedMainnetAddress =
        .ok "bf0e5393b520c5aba0a8a860941c1e09e171e18cf623219b3fe0ae191215e52c" ∧
      (requestsIssued (script sampleToOutputScript sampleSha256 sampleArgv cliAllFulfilled).2 =
          fixedRequests "8c9b04a72a8748d4a0c24deeec68de13cb2d5b799796787c467f3f617343d337"
            testnetTxId testnetTxBlockHeight ∧
        strictlySequential
          (script sampleToOutputScript sampleSha256 sampleArgv cliAllFulfilled).2 = true) ∧
      (requestsIssued
          (script sampleToOutputScript sampleSha256 sampleArgvMainnet cliAllFulfilled).2 =
          fixedRequests "bf0e5393b520c5aba0a8a860941c1e09e171e18cf623219b3fe0ae191215e52c"
            mainnetTxId mainnetTxBlockHeight ∧
        strictlySequential
          (script sampleToOutputScript sampleSha256 sampleArgvMainnet cliAllFulfilled).2 =
            true) :=
  ⟨by decide, by decide,
    script_requests_in_order sampleToOutputScript sampleSha256 sampleArgv cliAllFulfilled
      "8c9b04a72a8748d4a0c24deeec68de13cb2d5b799796787c467f3f617343d337"
      "bf0e5393b520c5aba0a8a860941c1e09e171e18cf623219b3fe0ae191215e52c"
      (by decide) (by decide) (by decide) (no_request_rejected_of_all _ (by decide))
      (no_unconvertible_result_of_all _ (by decide)),
    script_requests_in_order sampleToOutputScript sampleSha256 sampleArgvMainnet
      cliAllFulfilled
      "8c9b04a72a8748d4a0c24deeec68de13cb2d5b799796787c467f3f617343d337"
      "bf0e5393b520c5aba0a8a860941c1e09e171e18cf623219b3fe0ae191215e52c"
      (by decide) (by decide) (by decide) (no_request_rejected_of_all _ (by decide))
      (no_unconvertible_result_of_all _ (by decide))⟩

/-- C4 as stated fails: with the true scripts and digests of the fixtures and a server that
fulfils everything and answers `server.version` with an object that has a member
`toString`, the script loads, `connect` is fulfilled and no request is rejected, yet the
requests issued are not the ten of the fixed sequence. -/
theorem script_requests_in_order_counterexample :
    ¬ (Event.connectSettled (.fulfilled ()) ∈
          (script sampleToOutputScript sampleSha256 sampleArgv cliVersionObject).2 →
        (∀ r e, Event.settled r (.rejected e) ∉
          (script sampleToOutputScript sampleSha256 sampleArgv cliVersionObject).2) →
        requestsIssued
            (script sampleToOutputScript sampleSha256 sampleArgv cliVersionObject).2 =
          fixedRequests "8c9b04a72a8748d4a0c24deeec68de13cb2d5b799796787c467f3f617343d337"
            testnetTxId testnetTxBlockHeight) := by
  intro h
  have h2 := h (by decide) (no_request_rejected_of_all _ (by decide))
  revert h2
  decide

/-- C1, as the code has it: in every run of `main` in which `connect` is fulfilled and the
`get_history` request is rejected, the five earlier requests were fulfilled and logged with
their results, the rejection is logged, `close` follows, and none of the four later requests
is issued: the requests issued are the first six of the fixed ten. -/
theorem main_history_rejected_stops (argv : Argv) (ht hm : String) (ecl : ElectrumCli)
    (e : Err)
    (hc : Event.connectSettled (.fulfilled ()) ∈ (main argv ht hm ecl []).2)
    (hh : Event.settled (.blockchainScripthash_getHistory (if argv.testnet then ht else hm))
      (.rejected e) ∈ (main argv ht hm ecl []).2) :
    requestsIssued (main argv ht hm ecl []).2 =
        (fixedRequests (if argv.testnet then ht else hm)
          (if argv.testnet then testnetTxId else mainnetTxId)
          (if argv.testnet then testnetTxBlockHeight else mainnetTxBlockHeight)).take 6 ∧
      ∃ ver feeHigh feeMed feeLow balance s,
        (main argv ht hm ecl []).2 = header argv ++
          [ .connectSettled (.fulfilled ()),
            .issued (.server_version "Test" "1.4"),
            .settled (.server_version "Test" "1.4") (.fulfilled ver),
            .log (.value "Version: " ver),
            .issued (.blockchainEstimatefee 1),
            .settled (.blockchainEstimatefee 1) (.fulfilled feeHigh),
            .log (.value "Fee estimate 1 blocks: " feeHigh),
            .issued (.blockchainEstimatefee 4),
            .settled (.blockchainEstimatefee 4) (.fulfilled feeMed),
            .log (.value "Fee estimate 4 blocks: " feeMed),
            .issued (.blockchainEstimatefee 10),
            .settled (.blockchainEstimatefee 10) (.fulfilled feeLow),
            .log (.value "Fee estimate 10 blocks: " feeLow),
            .issued (.blockchainScripthash_getBalance (if argv.testnet then ht else hm)),
            .settled (.blockchainScripthash_getBalance (if argv.testnet then ht else hm))
              (.fulfilled balance),
            .log (.value "\x7b balance \x7d" balance),
            .issued (.blockchainScripthash_getHistory (if argv.testnet then ht else hm)),
            .settled (.blockchainScripthash_getHistory (if argv.testnet then ht else hm))
              (.rejected e),
            .log (.thrown e),
            .closeCalled,
            .closeSettled s ] := by
  obtain ⟨res, ev, s, hcr, hrun⟩ := main_run_of_connected argv ht hm ecl hc
  rw [hrun] at hh ⊢
  clear hrun hc
  simp only [labelledCalls] at hcr
  rcases hcr.cons_inv with ⟨v1, ev1, rfl, hcr1⟩ | ⟨e1, rfl, rfl⟩ | ⟨w, rfl, rfl⟩
  rotate_left
  · simp [header, caught] at hh
  · simp [header, caught] at hh
  rcases hcr1.cons_inv with ⟨v2, ev2, rfl, hcr2⟩ | ⟨e1, rfl, rfl⟩ | ⟨w, rfl, rfl⟩
  rotate_left
  · simp [header, caught] at hh
  · simp [header, caught] at hh
  rcases hcr2.cons_inv with ⟨v3, ev3, rfl, hcr3⟩ | ⟨e1, rfl, rfl⟩ | ⟨w, rfl, rfl⟩
  rotate_left
  · simp [header, caught] at hh
  · simp [header, caught] at hh
  rcases hcr3.cons_inv with ⟨v4, ev4, rfl, hcr4⟩ | ⟨e1, rfl, rfl⟩ | ⟨w, rfl, rfl⟩
  rotate_left
  · simp [header, caught] at hh
  · simp [header, caught] at hh
  rcases hcr4.cons_inv with ⟨v5, ev5, rfl, hcr5⟩ | ⟨e1, rfl, rfl⟩ | ⟨w, rfl, rfl⟩
  rotate_left
  · simp [header, caught] at hh
  · simp [header, caught] at hh
  rcases hcr5.cons_inv with ⟨v6, ev6, rfl, hcr6⟩ | ⟨e1, rfl, rfl⟩ | ⟨w, rfl, rfl⟩
  · exfalso
    have hnot : Event.settled (.blockchainScripthash_getHistory (if argv.testnet then ht else hm))
        (.rejected e) ∉ ev6 := by
      intro hmem
      have h1 := hcr6.settled_mem _ _ hmem
      simp at h1
    have hnot2 := not_mem_caught res
      (Event.settled (.blockchainScripthash_getHistory (if argv.testnet then ht else hm))
        (.rejected e)) (by intro e1 h; cases h)
    simp [header, hnot, hnot2] at hh
  · have he : e = e1 := by
      simpa [header, caught] using hh
    subst he
    refine ⟨?_, v1, v2, v3, v4, v5, s, ?_⟩
    · simp [requestsIssued_append, requestsIssued, header, caught, fixedRequests]
    · simp [caught]
  · simp [header, caught] at hh

/-- The amended C1 at a server that rejects `get_history`. -/
theorem main_history_rejected_stops_witness :
    Event.connectSettled (.fulfilled ()) ∈
        (main sampleArgv "ht" "hm" cliHistoryRejected []).2 ∧
      Event.settled (.blockchainScripthash_getHistory "ht") (.rejected "history too large") ∈
        (main sampleArgv "ht" "hm" cliHistoryRejected []).2 ∧
      requestsIssued (main sampleArgv "ht" "hm" cliHistoryRejected []).2 =
        (fixedRequests "ht" testnetTxId testnetTxBlockHeight).take 6 :=
  ⟨by decide, by decide,
    (main_history_rejected_stops sampleArgv "ht" "hm" cliHistoryRejected "history too large"
      (by decide) (by decide)).1⟩

/-- C1 as stated fails: with a server that rejects `get_history` only, `connect` is
fulfilled, `get_history` is rejected, and `transaction.get` is never issued (nor is any of
the three requests after it). -/
theorem main_history_rejected_counterexample :
    ¬ ((Event.connectSettled (.fulfilled ()) ∈
          (main sampleArgv "ht" "hm" cliHistoryRejected []).2 ∧
        ∃ e, Event.settled (.blockchainScripthash_getHistory "ht") (.rejected e) ∈
          (main sampleArgv "ht" "hm" cliHistoryRejected []).2) →
      Event.issued (.request "blockchain.transaction.get" [.str testnetTxId, .bool false]) ∈
          (main sampleArgv "ht" "hm" cliHistoryRejected []).2 ∧
        Event.issued (.blockchainScripthash_listunspent "ht") ∈
          (main sampleArgv "ht" "hm" cliHistoryRejected []).2 ∧
        Event.issued (.request "blockchain.block.header" [.num 12345]) ∈
          (main sampleArgv "ht" "hm" cliHistoryRejected []).2 ∧
        Event.issued (.blockchainTransaction_getMerkle testnetTxId testnetTxBlockHeight) ∈
          (main sampleArgv "ht" "hm" cliHistoryRejected []).2) := by
  intro h
  have h2 := (h ⟨by decide, "history too large", by decide⟩).1
  revert h2
  decide

/-! ## Claims about the tables and `getScriptHash` -/

theorem startsWith_iff (s p : String) : startsWith s p = true ↔ ∃ rest, s = p ++ rest := by
  unfold startsWith
  rw [ List.isPrefixOf_iff_prefix]
  constructor
  · rintro ⟨t, ht⟩
    exact ⟨String.mk t, String.ext (by simpa using ht.symm)⟩
  · rintro ⟨rest, rfl⟩
    exact ⟨rest.toList, by simp⟩

theorem getScriptHash_eq (toOutputScript : String → Network → Except Err (List Byte))
    (sha256 : List Byte → List Byte) (a : String) :
    getScriptHash toOutputScript sha256 a =
      (toOutputScript a (getScriptHash_network a)).map
        (fun script => toStringHex (sha256 script).reverse) := by
  simp only [getScriptHash]
  cases h : toOutputScript a (getScriptHash_network a) <;>
    simp [Except.map, bind, Except.bind, pure, Except.pure]

/-- C5: for every address string, `getScriptHash` hands `toOutputScript` the testnet table
exactly when the address starts with `2`, `tb1`, `m` or `n`, and the mainnet table for every
other string, the empty one included; the testnet fixture goes to testnet and the mainnet
fixture to mainnet. -/
theorem getScriptHash_network_selection (a : String) :
    (getScriptHash_network a = TESTNET_P2SH_P2WSH ↔
        ((∃ rest, a = "2" ++ rest) ∨ (∃ rest, a = "tb1" ++ rest) ∨
          (∃ rest, a = "m" ++ rest) ∨ (∃ rest, a = "n" ++ rest))) ∧
      (getScriptHash_network a = MAINNET_P2SH_P2WSH ↔
        ¬ ((∃ rest, a = "2" ++ rest) ∨ (∃ rest, a = "tb1" ++ rest) ∨
          (∃ rest, a = "m" ++ rest) ∨ (∃ rest, a = "n" ++ rest))) ∧
      getScriptHash_network "" = MAINNET_P2SH_P2WSH ∧
      getScriptHash_network fundedTestnetAddress = TESTNET_P2SH_P2WSH ∧
      getScriptHash_network fundedMainnetAddress = MAINNET_P2SH_P2WSH ∧
      (∀ (toOutputScript : String → Network → Except Err (List Byte))
          (sha256 : List Byte → List Byte),
        getScriptHash toOutputScript sha256 a =
          (toOutputScript a (getScriptHash_network a)).map
            (fun script => toStringHex (sha256 script).reverse)) := by
  have hne : TESTNET_P2SH_P2WSH ≠ MAINNET_P2SH_P2WSH := by decide
  simp only [← startsWith_iff]
  refine ⟨?_, ?_, by decide, by decide, by decide, ?_⟩
  · unfold getScriptHash_network
    split
    · rename_i h
      simpa [Bool.or_eq_true, or_assoc] using h
    · rename_i h
      simp only [Bool.or_eq_true, or_assoc] at h
      simp [h, hne.symm]
  · unfold getScriptHash_network
    split
    · rename_i h
      simp only [Bool.or_eq_true, or_assoc] at h
      simp [h, hne]
    · rename_i h
      simpa [Bool.or_eq_true, or_assoc] using h
  · intro toOutputScript sha256
    exact getScriptHash_eq toOutputScript sha256 a

/-- C9, on the code: the two tables have the same `bech32` field, `tb` in both, so they do
not differ in the segwit human-readable part; they do differ in the public-key-hash byte,
the script-hash byte, the WIF byte and both extended-key version words. -/
theorem network_tables_share_bech32 :
    MAINNET_P2SH_P2WSH.bech32 = TESTNET_P2SH_P2WSH.bech32 ∧
      MAINNET_P2SH_P2WSH.bech32 = "tb" ∧
      getScriptHash_network "bc1qar0srrr7xfkvy5l643lydnw9re59gtzzwf5mdq" = MAINNET_P2SH_P2WSH ∧
      MAINNET_P2SH_P2WSH.pubKeyHash ≠ TESTNET_P2SH_P2WSH.pubKeyHash ∧
      MAINNET_P2SH_P2WSH.scriptHash ≠ TESTNET_P2SH_P2WSH.scriptHash ∧
      MAINNET_P2SH_P2WSH.wif ≠ TESTNET_P2SH_P2WSH.wif ∧
      MAINNET_P2SH_P2WSH.bip32.publicKey ≠ TESTNET_P2SH_P2WSH.bip32.publicKey ∧
      MAINNET_P2SH_P2WSH.bip32.privateKey ≠ TESTNET_P2SH_P2WSH.bip32.privateKey := by
  decide

theorem hexDigit_mem (n : Nat) (h : n < 16) :
    ('0' ≤ hexDigit n ∧ hexDigit n ≤ '9') ∨ ('a' ≤ hexDigit n ∧ hexDigit n ≤ 'f') := by
  interval_cases n <;> decide

theorem hexValue_hexDigit (n : Nat) (h : n < 16) : hexValue (hexDigit n) = some n := by
  interval_cases n <;> decide

theorem toStringHex_length (buf : List Byte) : (toStringHex buf).length = 2 * buf.length := by
  unfold toStringHex
  rw [String.length]
  induction buf with
  | nil => rfl
  | cons b rest ih => simp [List.flatMap_cons, hexOfByte, ih]; omega

theorem toStringHex_chars (buf : List Byte) :
    ∀ c ∈ (toStringHex buf).toList, ('0' ≤ c ∧ c ≤ '9') ∨ ('a' ≤ c ∧ c ≤ 'f') := by
  intro c hc
  simp only [toStringHex, String.toList, List.mem_flatMap, hexOfByte] at hc
  obtain ⟨b, -, hb⟩ := hc
  simp only [List.mem_cons, List.mem_singleton, List.not_mem_nil, or_false] at hb
  rcases hb with rfl | rfl
  · exact hexDigit_mem _ (by omega)
  · exact hexDigit_mem _ (by omega)

theorem fromHex_toStringHex (buf : List Byte) : fromHex (toStringHex buf) = some buf := by
  unfold fromHex toStringHex
  simp only [String.toList]
  induction buf with
  | nil => rfl
  | cons b rest ih =>
    have h1 : hexValue (hexDigit (b.val / 16)) = some (b.val / 16) :=
      hexValue_hexDigit _ (by omega)
    have h2 : hexValue (hexDigit (b.val % 16)) = some (b.val % 16) :=
      hexValue_hexDigit _ (by omega)
    have h3 : (Fin.ofNat (16 * (b.val / 16) + b.val % 16) : Fin 256) = b := by
      apply Fin.ext
      simp only [Fin.ofNat, Fin.val_mk]
      omega
    show fromHexChars (hexDigit (b.val / 16) :: hexDigit (b.val % 16) ::
      rest.flatMap hexOfByte) = some (b :: rest)
    simp only [fromHexChars, h1, h2, ih, h3]

/-- C6: for every address whose output-script encoding succeeds, if the SHA-256 digest has
32 bytes then `getScriptHash` returns a string of exactly 64 characters, each one of `0`-`9`
or `a`-`f`, and every call with that address returns that same string. -/
theorem getScriptHash_output_format
    (toOutputScript : String → Network → Except Err (List Byte))
    (sha256 : List Byte → List Byte) (a : String) (script : List Byte)
    (henc : toOutputScript a (getScriptHash_network a) = .ok script)
    (hlen : (sha256 script).length = 32) :
    ∃ s, getScriptHash toOutputScript sha256 a = .ok s ∧
      s.length = 64 ∧
      (∀ c ∈ s.toList, ('0' ≤ c ∧ c ≤ '9') ∨ ('a' ≤ c ∧ c ≤ 'f')) ∧
      ∀ a1, a1 = a → getScriptHash toOutputScript sha256 a1 = .ok s := by
  refine ⟨toStringHex (sha256 script).reverse, ?_, ?_, toStringHex_chars _, ?_⟩
  · rw [getScriptHash_eq, henc]; rfl
  · rw [toStringHex_length, List.length_reverse, hlen]
  · rintro a1 rfl
    rw [getScriptHash_eq, henc]; rfl

/-- C6 at the testnet fixture address, with its true output script and digest. -/
theorem getScriptHash_output_format_witness :
    sampleToOutputScript fundedTestnetAddress (getScriptHash_network fundedTestnetAddress) =
        .ok [0x00, 0x14, 0xf4, 0xa2, 0xa2, 0x61, 0x8a, 0x9f, 0x67, 0x17, 0x91, 0x52, 0x17, 0x11,
          0xaf, 0xf5, 0x70, 0x57, 0x4a, 0x3f, 0x12, 0x53] ∧
      (sampleSha256 [0x00, 0x14, 0xf4, 0xa2, 0xa2, 0x61, 0x8a, 0x9f, 0x67, 0x17, 0x91, 0x52,
          0x17, 0x11, 0xaf, 0xf5, 0x70, 0x57, 0x4a, 0x3f, 0x12, 0x53]).length = 32 ∧
      ∃ s, getScriptHash sampleToOutputScript sampleSha256 fundedTestnetAddress = .ok s ∧
        s.length = 64 ∧
        (∀ c ∈ s.toList, ('0' ≤ c ∧ c ≤ '9') ∨ ('a' ≤ c ∧ c ≤ 'f')) ∧
        ∀ a1, a1 = fundedTestnetAddress →
          getScriptHash sampleToOutputScript sampleSha256 a1 = .ok s :=
  ⟨by decide, by decide,
    getScriptHash_output_format sampleToOutputScript sampleSha256 fundedTestnetAddress
      [0x00, 0x14, 0xf4, 0xa2, 0xa2, 0x61, 0x8a, 0x9f, 0x67, 0x17, 0x91, 0x52, 0x17, 0x11,
        0xaf, 0xf5, 0x70, 0x57, 0x4a, 0x3f, 0x12, 0x53]
      (by decide) (by decide)⟩

/-- C7: for every address whose encoding succeeds under the table inferred from its
prefix (the testnet table when it starts with `2`, `tb1`, `m` or `n`, the mainnet table
otherwise), `getScriptHash` returns the hex encoding of the reversed digest of one SHA-256
over that output script; decoding the result and reversing the bytes gives the digest back,
and the decoded result is the digest itself only when the digest reads the same in both
directions. -/
theorem getScriptHash_reverses_once
    (toOutputScript : String → Network → Except Err (List Byte))
    (sha256 : List Byte → List Byte) (a : String) (script : List Byte)
    (henc : toOutputScript a
      (if startsWith a "2" || startsWith a "tb1" || startsWith a "m" || startsWith a "n"
        then TESTNET_P2SH_P2WSH else MAINNET_P2SH_P2WSH) = .ok script) :
    getScriptHash toOutputScript sha256 a = .ok (toStringHex (sha256 script).reverse) ∧
      (∀ s, getScriptHash toOutputScript sha256 a = .ok s →
        (fromHex s).map List.reverse = some (sha256 script)) ∧
      (∀ s, getScriptHash toOutputScript sha256 a = .ok s →
        (fromHex s = some (sha256 script) ↔ (sha256 script).reverse = sha256 script)) := by
  have h : getScriptHash toOutputScript sha256 a =
      .ok (toStringHex (sha256 script).reverse) := by
    rw [getScriptHash_eq]
    unfold getScriptHash_network
    rw [henc]; rfl
  refine ⟨h, ?_, ?_⟩
  · intro s hs
    rw [h] at hs
    cases hs
    simp [fromHex_toStringHex]
  · intro s hs
    rw [h] at hs
    cases hs
    simp [fromHex_toStringHex]

/-- C7 at both fixture addresses, with their true output scripts and digests: the mainnet
one is encoded under the mainnet table, the testnet one under the testnet table, and the
results are the script hashes Electrum knows them by. -/
theorem getScriptHash_reverses_once_witness :
    (sampleToOutputScript fundedMainnetAddress
        (if startsWith fundedMainnetAddress "2" || startsWith fundedMainnetAddress "tb1" ||
            startsWith fundedMainnetAddress "m" || startsWith fundedMainnetAddress "n"
          then TESTNET_P2SH_P2WSH else MAINNET_P2SH_P2WSH) =
        .ok [0xa9, 0x14, 0x3d, 0x57, 0x56, 0xcc, 0x64, 0x5e, 0xbe, 0x4a, 0xd4, 0x30, 0x35, 0x52,
          0x57, 0xca, 0x89, 0x40, 0x14, 0x43, 0x89, 0x76, 0x87] ∧
      getScriptHash sampleToOutputScript sampleSha256 fundedMainnetAddress =
        .ok (toStringHex (sampleSha256 [0xa9, 0x14, 0x3d, 0x57, 0x56, 0xcc, 0x64, 0x5e, 0xbe,
          0x4a, 0xd4, 0x30, 0x35, 0x52, 0x57, 0xca, 0x89, 0x40, 0x14, 0x43, 0x89, 0x76,
          0x87]).reverse)) ∧
      (sampleToOutputScript fundedTestnetAddress
        (if startsWith fundedTestnetAddress "2" || startsWith fundedTestnetAddress "tb1" ||
            startsWith fundedTestnetAddress "m" || startsWith fundedTestnetAddress "n"
          then TESTNET_P2SH_P2WSH else MAINNET_P2SH_P2WSH) =
        .ok [0x00, 0x14, 0xf4, 0xa2, 0xa2, 0x61, 0x8a, 0x9f, 0x67, 0x17, 0x91, 0x52, 0x17, 0x11,
          0xaf, 0xf5, 0x70, 0x57, 0x4a, 0x3f, 0x12, 0x53] ∧
      getScriptHash sampleToOutputScript sampleSha256 fundedTestnetAddress =
        .ok (toStringHex (sampleSha256 [0x00, 0x14, 0xf4, 0xa2, 0xa2, 0x61, 0x8a, 0x9f, 0x67,
          0x17, 0x91, 0x52, 0x17, 0x11, 0xaf, 0xf5, 0x70, 0x57, 0x4a, 0x3f, 0x12,
          0x53]).reverse)) :=
  ⟨⟨by decide,
    (getScriptHash_reverses_once sampleToOutputScript sampleSha256 fundedMainnetAddress
      [0xa9, 0x14, 0x3d, 0x57, 0x56, 0xcc, 0x64, 0x5e, 0xbe, 0x4a, 0xd4, 0x30, 0x35, 0x52,
        0x57, 0xca, 0x89, 0x40, 0x14, 0x43, 0x89, 0x76, 0x87]
      (by decide)).1⟩,
    ⟨by decide,
    (getScriptHash_reverses_once sampleToOutputScript sampleSha256 fundedTestnetAddress
      [0x00, 0x14, 0xf4, 0xa2, 0xa2, 0x61, 0x8a, 0x9f, 0x67, 0x17, 0x91, 0x52, 0x17, 0x11,
        0xaf, 0xf5, 0x70, 0x57, 0x4a, 0x3f, 0x12, 0x53]
      (by decide)).1⟩⟩

end TestElectrum
